import Mathlib

/-!
Verification development for the osm2svg4opcd pipeline
(`osm2svg_v5.py`, `svg_points2path.py`, `fix_bunker_inset.py`).

Points are shallowly embedded as pairs of rationals.  Python's `math.sqrt`
(respectively `abs` on complex numbers) is an opaque numeric primitive of the
host language; definitions that call it take it as an explicit function
argument `sqrt_` (resp. `abs_`), and concrete evaluations instantiate it with
`ratSqrt`, which agrees with the exact square root on every rational-square
argument arising in the concrete inputs used below.
-/

abbrev Q2 := ℚ × ℚ

/-- Multiplication of a complex number (as a pair) by `1j`. -/
def mulI (p : Q2) : Q2 := (-p.2, p.1)

/-- Multiplication of a complex number (as a pair) by `-1j`. -/
def mulNegI (p : Q2) : Q2 := (p.2, -p.1)

/-- Model of Python's `math.sqrt` on rationals: exact when the argument is the
square of a rational, `0` otherwise.  Every concrete instance below only
applies it to rational squares, where it coincides with the real square
root. -/
def ratSqrt (q : ℚ) : ℚ :=
  let a := q.num.toNat
  let b := q.den
  if Nat.sqrt a * Nat.sqrt a = a ∧ Nat.sqrt b * Nat.sqrt b = b ∧ 0 ≤ q.num then
    (Nat.sqrt a : ℚ) / (Nat.sqrt b : ℚ)
  else 0

/-- Round to the nearest integer, ties to even (the rounding used by Python's
fixed-point float formatting). -/
def round_half_even (q : ℚ) : ℤ :=
  let f := ⌊q⌋
  let r := q - f
  if r < 1/2 then f
  else if 1/2 < r then f + 1
  else if f % 2 = 0 then f else f + 1

/-- Left-pad a numeral string with zeros to the given width. -/
def padZeros (w : ℕ) (s : String) : String :=
  String.mk (List.replicate (w - s.length) '0') ++ s

/-- Model of Python's `str.lower()`: lower-case every character. -/
def str_lower (s : String) : String := String.mk (s.data.map Char.toLower)

/-- Model of Python's `f"{x:.4f}"` formatting of a coordinate. -/
def fmt4 (q : ℚ) : String :=
  let n := round_half_even (q * 10000)
  let sign := if n < 0 then "-" else ""
  let m := n.natAbs
  sign ++ toString (m / 10000) ++ "." ++ padZeros 4 (toString (m % 10000))

/-- Model of Python's `f"{v:.3f}"` applied to `n / CLIPPER_SCALE_FACTOR`
where `n` is an integer-scaled coordinate (exact at three decimals). -/
def fmt3_scaled (n : ℤ) : String :=
  let sign := if n < 0 then "-" else ""
  let m := n.natAbs
  sign ++ toString (m / 1000) ++ "." ++ padZeros 3 (toString (m % 1000))

/-! ## `fix_bunker_inset.py`: adaptive outset corrector -/

/-- Source constant `SAMPLES_PER_UNIT_LENGTH = 4`. -/
def SAMPLES_PER_UNIT_LENGTH : ℚ := 4

/-- Source constant `MIN_SAMPLES = 200`. -/
def MIN_SAMPLES : ℤ := 200

/-- Source constant `CLIPPER_SCALE_FACTOR = 1000.0`. -/
def CLIPPER_SCALE_FACTOR : ℚ := 1000

/-- Python's `int()` conversion: truncation toward zero. -/
def int_trunc (q : ℚ) : ℤ := if 0 ≤ q then ⌊q⌋ else -⌊-q⌋

/-- Sample-count computation of `simplify_and_offset_path` (lines 58-65):
`num_samples = int(path_length * SAMPLES_PER_UNIT_LENGTH)` followed by
`num_samples = max(num_samples, MIN_SAMPLES)`. -/
def num_samples (path_length : ℚ) : ℤ :=
  max (int_trunc (path_length * SAMPLES_PER_UNIT_LENGTH)) MIN_SAMPLES

/-- Model of `np.linspace(0, 1, n, endpoint=True)`: the `n` parameter values
`i / (n - 1)` for `i = 0, …, n-1`. -/
def t_values (n : ℕ) : List ℚ :=
  (List.range n).map (fun i : ℕ => (i : ℚ) / ((n : ℚ) - 1))

/-- Python's `max(offset_polygons, key=len)`: the first ring of maximal
vertex count (`max` keeps the current element unless a later one is strictly
longer). -/
def maxByLen (rings : List (List (ℤ × ℤ))) : List (ℤ × ℤ) :=
  match rings with
  | [] => []
  | r :: rs => rs.foldl (fun best x => if best.length < x.length then x else best) r

/-- Reconstruction of the corrected boundary (lines 101-112): an `M` command
at the first vertex, an `L` command per remaining vertex, then `Z`, each
coordinate unscaled by `CLIPPER_SCALE_FACTOR` and printed at 3 decimals. -/
def reconstruct_d (ring : List (ℤ × ℤ)) : String :=
  match ring with
  | [] => "Z"
  | p :: ps =>
    "M " ++ fmt3_scaled p.1 ++ "," ++ fmt3_scaled p.2 ++ " " ++
      String.join (ps.map (fun q => "L " ++ fmt3_scaled q.1 ++ "," ++ fmt3_scaled q.2 ++ " ")) ++
      "Z"

/-- Result assembly of `simplify_and_offset_path` (lines 95-116): when the
offsetting primitive returned at least one ring, rebuild the path from the
ring with the greatest vertex count, otherwise return the original `d`
string unmodified. -/
def simplify_and_offset_result (offset_polygons : List (List (ℤ × ℤ))) (d_string : String) :
    String :=
  match offset_polygons with
  | [] => d_string
  | r :: rs => reconstruct_d (maxByLen (r :: rs))

/-! ## `osm2svg_v5.py`: geometry kernel and stroke-to-outline converter -/

/-- `get_normal(p1, p2)` (lines 33-42): the segment length together with the
normalized perpendicular vector, `(0, 0, 0)` for a zero-length segment. -/
def get_normal (sqrt_ : ℚ → ℚ) (p1 p2 : Q2) : ℚ × ℚ × ℚ :=
  let dx := p2.1 - p1.1
  let dy := p2.2 - p1.2
  let length := sqrt_ (dx * dx + dy * dy)
  if length = 0 then (0, 0, 0)
  else (length, -dy / length, dx / length)

/-- `intersect_lines(p1, p2, p3, p4)` (lines 44-61): intersection point of the
two infinite lines, `none` when parallel or collinear. -/
def intersect_lines (p1 p2 p3 p4 : Q2) : Option Q2 :=
  let den := (p1.1 - p2.1) * (p3.2 - p4.2) - (p1.2 - p2.2) * (p3.1 - p4.1)
  if den = 0 then none
  else
    let t := ((p1.1 - p3.1) * (p3.2 - p4.2) - (p1.2 - p3.2) * (p3.1 - p4.1)) / den
    some (p1.1 + t * (p2.1 - p1.1), p1.2 + t * (p2.2 - p1.2))

/-- Per-segment data prepared by `convert_stroke_to_path` (lines 192-207):
length, normal components, forward rail `(f1, f2)` and reverse rail
`(r1, r2)`. -/
structure SegData where
  len : ℚ
  nx : ℚ
  ny : ℚ
  f1 : Q2
  f2 : Q2
  r1 : Q2
  r2 : Q2
deriving Inhabited, DecidableEq, Repr

/-- The `segments_data` list of `convert_stroke_to_path` (lines 193-207). -/
def segments_data (sqrt_ : ℚ → ℚ) (points : List Q2) (half_width : ℚ) : List SegData :=
  (points.zip points.tail).map (fun pq =>
    let p1 := pq.1
    let p2 := pq.2
    let n := get_normal sqrt_ p1 p2
    { len := n.1, nx := n.2.1, ny := n.2.2
      f1 := (p1.1 + n.2.1 * half_width, p1.2 + n.2.2 * half_width)
      f2 := (p2.1 + n.2.1 * half_width, p2.2 + n.2.2 * half_width)
      r1 := (p1.1 - n.2.1 * half_width, p1.2 - n.2.2 * half_width)
      r2 := (p2.1 - n.2.1 * half_width, p2.2 - n.2.2 * half_width) })

/-- Corner-joint computation of `convert_stroke_to_path` (lines 227-258):
straight connection above the straightness threshold, otherwise the miter
intersection of both rails, falling back to the straight connection when
either intersection is missing.  Returns the forward and reverse joint
points. -/
def joint (straight_threshold : ℚ) (seg_in seg_out : SegData) : Q2 × Q2 :=
  let dot := seg_in.nx * seg_out.nx + seg_in.ny * seg_out.ny
  if straight_threshold ≤ dot then (seg_out.f1, seg_out.r1)
  else
    match intersect_lines seg_in.f1 seg_in.f2 seg_out.f1 seg_out.f2,
          intersect_lines seg_in.r1 seg_in.r2 seg_out.r1 seg_out.r2 with
    | some i_f, some i_r => (i_f, i_r)
    | _, _ => (seg_out.f1, seg_out.r1)

/-- Outline vertices produced by `convert_stroke_to_path` (lines 209-275) in
emission order: the forward rail (start cap, corner joints, end cap) followed
by the reverse rail in reverse.  Requires `points.length ≥ 2` to be
meaningful (the caller guards this). -/
def stroke_outline (sqrt_ : ℚ → ℚ) (points : List Q2) (stroke_width : ℚ)
    (style_attrs : List (String × String)) (straight_threshold : ℚ) : List Q2 :=
  let half_width := stroke_width / 2
  let cap_style := str_lower ((style_attrs.lookup "stroke-linecap").getD "butt")
  let segs := segments_data sqrt_ points half_width
  let seg0 := segs.headD default
  let seg_last := segs.getLastD default
  let start_f := seg0.f1
  let start_r := seg0.r1
  let start_fr :=
    if cap_style = "square" then
      let n := get_normal sqrt_ (points.getD 1 (0, 0)) (points.getD 0 (0, 0))
      (((start_f.1 + n.2.1 * half_width, start_f.2 + n.2.2 * half_width) : Q2),
       ((start_r.1 + n.2.1 * half_width, start_r.2 + n.2.2 * half_width) : Q2))
    else (start_f, start_r)
  let corners := (List.range (points.length - 2)).map
    (fun i => joint straight_threshold (segs.getD i default) (segs.getD (i + 1) default))
  let end_f := seg_last.f2
  let end_r := seg_last.r2
  let end_fr :=
    if cap_style = "square" then
      let n := get_normal sqrt_ (points.getD (points.length - 2) (0, 0))
        ((points.getLastD (0, 0)))
      (((end_f.1 + n.2.1 * half_width, end_f.2 + n.2.2 * half_width) : Q2),
       ((end_r.1 + n.2.1 * half_width, end_r.2 + n.2.2 * half_width) : Q2))
    else (end_f, end_r)
  (start_fr.1 :: corners.map Prod.fst ++ [end_fr.1]) ++
    (end_fr.2 :: (corners.map Prod.snd).reverse ++ [start_fr.2])

/-- Serialization of the outline (lines 223, 257, 271, 275-277): the first
vertex as an `M` command, every other vertex as an `L` command, joined with
single spaces and closed with `Z`. -/
def render_outline (pts : List Q2) : String :=
  match pts with
  | [] => " Z"
  | p :: ps =>
    String.intercalate " "
      (("M " ++ fmt4 p.1 ++ " " ++ fmt4 p.2) ::
        ps.map (fun q => "L " ++ fmt4 q.1 ++ " " ++ fmt4 q.2)) ++ " Z"

/-- `convert_stroke_to_path` (lines 180-277): empty string for fewer than two
points, otherwise the closed mitered outline of the polyline.  The
`corner_radius` parameter is accepted and unused, as in the source. -/
def convert_stroke_to_path (sqrt_ : ℚ → ℚ) (points : List Q2) (stroke_width : ℚ)
    (style_attrs : List (String × String)) (corner_radius straight_threshold : ℚ) : String :=
  if points.length < 2 then ""
  else render_outline (stroke_outline sqrt_ points stroke_width style_attrs straight_threshold)

/-- Modelled from the spec: the square end cap "extends both rails outward
along the segment direction by half the width" (§4.1).  `p_inner` is the
polyline point adjacent to the end point `p_end`; the rail endpoint `rail`
is moved by `half_width` along the unit vector from `p_inner` to `p_end`. -/
def spec_square_cap_extend (sqrt_ : ℚ → ℚ) (p_inner p_end rail : Q2) (half_width : ℚ) : Q2 :=
  let dx := p_end.1 - p_inner.1
  let dy := p_end.2 - p_inner.2
  let l := sqrt_ (dx * dx + dy * dy)
  (rail.1 + dx / l * half_width, rail.2 + dy / l * half_width)

/-- Axis-aligned bounding box of a vertex list: `none` when empty, otherwise
`((min x, min y), (max x, max y))`. -/
def bbox (pts : List Q2) : Option (Q2 × Q2) :=
  match pts with
  | [] => none
  | p :: ps =>
    some (ps.foldl
      (fun acc q => ((min acc.1.1 q.1, min acc.1.2 q.2), (max acc.2.1 q.1, max acc.2.2 q.2)))
      (p, p))

/-! ## `osm2svg_v5.py`: way-to-path conversion -/

/-- The global projection environment of `osm2svg_v5.py` (`nodes`, `ways`,
`minlon`, `minlat`, `xscale`, `yscale`, `outHeight`), set once in `main`. -/
structure OsmEnv where
  ways : List (String × List String)
  nodes : List (String × Q2)
  minlon : ℚ
  minlat : ℚ
  xscale : ℚ
  yscale : ℚ
  outHeight : ℚ

/-- The node-resolution loop of `convert_way_to_svg_path` (lines 103-115):
formats each resolvable node as `"x y"`; `none` as soon as any referenced
node is missing (the source returns `""` there). -/
def way_points (env : OsmEnv) : List String → Option (List String)
  | [] => some []
  | nodeid :: rest =>
    match env.nodes.lookup nodeid with
    | some ll =>
      let x := (ll.1 - env.minlon) * env.xscale
      let y := env.outHeight - (ll.2 - env.minlat) * env.yscale
      (way_points env rest).map (fun ps => (fmt4 x ++ " " ++ fmt4 y) :: ps)
    | none => none

/-- `convert_way_to_svg_path(way_id)` (lines 90-122): `""` for an unknown
way, a missing node, or an empty node list; otherwise
`"M p0 L p1 L … L pn Z"` via Python's
`f"M {points[0]} L {' L '.join(points[1:])} Z"`. -/
def convert_way_to_svg_path (env : OsmEnv) (way_id : String) : String :=
  match env.ways.lookup way_id with
  | none => ""
  | some node_refs =>
    match way_points env node_refs with
    | none => ""
    | some [] => ""
    | some (p :: ps) => "M " ++ p ++ " L " ++ String.intercalate " L " ps ++ " Z"

/-- Number of occurrences of the character `L` in a string. -/
def countL (s : String) : ℕ := (s.toList.filter (fun c => c = 'L')).length

/-! ## `osm2svg_v5.py`: z-order compositor -/

/-- Source constant `CLIPPING_GAP_SIZE = 0.05` (line 280). -/
def CLIPPING_GAP_SIZE : ℚ := 1 / 20

/-- The Shapely operations consumed by `clip_overlapping_paths`.  They are
external collaborators of the pipeline (spec §6) and are kept abstract; the
concrete instance `dpGeo` below realizes the one operation the
highest-priority path actually passes through. -/
structure GeoOps (α : Type) where
  is_empty : α → Bool
  area : α → ℚ
  unary_union : List α → α
  buffer : α → ℚ → α
  difference : α → α → α
  simplify : α → ℚ → α

/-- One iteration of the loop of `clip_overlapping_paths` (lines 298-324) at
index `i`: clip against the buffered union of all strictly-higher-priority
paths (`paths[:i]`), keep the simplified result unless it is empty or has
non-positive area. -/
def clip_step {α : Type} [Inhabited α] (G : GeoOps α) (paths : List α) (i : ℕ) : Option α :=
  let current_poly := paths.getD i default
  let higher_priority := paths.take i
  let result :=
    if higher_priority.isEmpty then current_poly
    else G.difference current_poly (G.buffer (G.unary_union higher_priority) CLIPPING_GAP_SIZE)
  if G.is_empty result = false ∧ 0 < G.area result then some (G.simplify result (1 / 1000))
  else none

/-- `clip_overlapping_paths` (lines 281-326).  The source iterates `i` from
`len-1` down to `0`, inserting each result at position `0`, so the returned
list is `[step 0, step 1, …, step (len-1)]`. -/
def clip_overlapping_paths {α : Type} [Inhabited α] (G : GeoOps α) (paths : List α) :
    List (Option α) :=
  (List.range paths.length).map (clip_step G paths)

/-! ## Concrete geometry instance for the compositor

A polygon is a closed coordinate ring (first point repeated last), the
representation Shapely exposes.  `simplify` is the Douglas–Peucker
vertex reduction the spec names ("a light simplification (vertex-reduction
tolerance, default 0.001 units)", §4.4); it is the only geometry primitive a
highest-priority feature passes through, since that feature is clipped
against nothing. -/

/-- Squared distance from `p` to the segment `(a, b)` (the measure used by
Douglas–Peucker vertex reduction). -/
def distSqPointSeg (p a b : Q2) : ℚ :=
  let dx := b.1 - a.1
  let dy := b.2 - a.2
  let len2 := dx * dx + dy * dy
  if len2 = 0 then (p.1 - a.1) * (p.1 - a.1) + (p.2 - a.2) * (p.2 - a.2)
  else
    let t := ((p.1 - a.1) * dx + (p.2 - a.2) * dy) / len2
    let tc := max 0 (min 1 t)
    let px := a.1 + tc * dx
    let py := a.2 + tc * dy
    (p.1 - px) * (p.1 - px) + (p.2 - py) * (p.2 - py)

/-- Index (1-based within the full section) and value of the first maximal
distance among the interior points. -/
def argmaxDist (a b : Q2) (interior : List Q2) : ℕ × ℚ :=
  (interior.foldl
    (fun (acc : (ℕ × ℚ) × ℕ) q =>
      let d := distSqPointSeg q a b
      let next := acc.2 + 1
      if acc.1.2 < d then ((next, d), next) else (acc.1, next))
    ((0, 0), 0)).1

/-- Modelled from the spec: one Douglas–Peucker section step with squared
tolerance `tol2`, fuel-bounded (the fuel strictly dominates the section
length, so it is never exhausted on the initial call). -/
def dpRun (tol2 : ℚ) : ℕ → List Q2 → List Q2
  | 0, pts => pts
  | _ + 1, [] => []
  | _ + 1, [p] => [p]
  | _ + 1, [p, q] => [p, q]
  | fuel + 1, p :: q :: rest =>
    let pts := p :: q :: rest
    let last := (q :: rest).getLastD q
    let interior := (q :: rest).dropLast
    let km := argmaxDist p last interior
    if km.2 ≤ tol2 then [p, last]
    else dpRun tol2 fuel (pts.take (km.1 + 1)) ++ (dpRun tol2 fuel (pts.drop km.1)).tail

/-- Shoelace area of a closed coordinate ring. -/
def shoelace_area (ring : List Q2) : ℚ :=
  |((ring.zip ring.tail).foldl (fun acc pq => acc + (pq.1.1 * pq.2.2 - pq.2.1 * pq.1.2)) 0)| / 2

/-- Modelled from the spec: concrete instance of the external geometry engine
(§6) on coordinate rings.  `simplify` is Douglas–Peucker vertex reduction at
the given distance tolerance and `area` is the shoelace area; the boolean
primitives (`unary_union`, `buffer`, `difference`) are placeholders that the
single-feature evaluations below provably never invoke, because the
highest-priority feature is clipped against nothing. -/
def dpGeo : GeoOps (List Q2) where
  is_empty := List.isEmpty
  area := shoelace_area
  unary_union := fun l => l.foldl (fun a b => a ++ b) []
  buffer := fun r _ => r
  difference := fun a _ => a
  simplify := fun r tol => dpRun (tol * tol) r.length r

/-- A unit-height square ring carrying one collinear interior vertex
`(1, 0)`: the smallest polygon on which vertex reduction acts. -/
def ringP : List Q2 := [(0, 0), (1, 0), (2, 0), (2, 2), (0, 2), (0, 0)]

/-! ## `osm2svg_v5.py`: the per-way block of `main` (lines 427-510) -/

/-- The per-tag style record built by `main` (lines 357-385). -/
structure StyleData where
  svg_style : String
  stroke_to_path : Bool
  corner_radius : ℚ
  z_order : ℤ
  attrs : List (String × String)
deriving Inhabited

/-- A way together with its resolved style and projected coordinates, the
state of `main`'s way loop after steps 1-2 (lines 431-456). -/
structure WayFeature where
  way_id : String
  feature_tag : String
  style_data : StyleData
  way_coords : List Q2
deriving Inhabited

/-- Steps 2-4 of `main`'s way loop (lines 458-510): skip a way with fewer
than two projected coordinates (`continue`, printing nothing), otherwise
emit the stroke-to-path `<path>` element or a styled `<polyline>` element
with the way's z-order.  The second component collects what the block
prints; the block contains no print statement, so it is always empty. -/
def way_step (sqrt_ : ℚ → ℚ) (parse_float : String → ℚ) (w : WayFeature) :
    Option (ℤ × String) × List String :=
  if w.way_coords.length < 2 then (none, [])
  else
    let svg_element :=
      if w.style_data.stroke_to_path then
        let stroke_width := parse_float ((w.style_data.attrs.lookup "stroke-width").getD "1.0")
        let radius := w.style_data.corner_radius
        let path_d := convert_stroke_to_path sqrt_ w.way_coords stroke_width
          w.style_data.attrs radius (999 / 1000)
        let fill_color := (w.style_data.attrs.lookup "stroke").getD "black"
        "<path d=\"" ++ path_d ++ "\" fill=\"" ++ fill_color ++
          "\" stroke=\"none\" stroke-width=\"0\" id=\"way_" ++ w.way_id ++ "_path_" ++
          w.feature_tag ++ "\"/>\n"
      else
        let polyline_points :=
          String.intercalate " " (w.way_coords.map (fun p => fmt4 p.1 ++ " " ++ fmt4 p.2))
        let style_attrs :=
          String.intercalate " "
            (w.style_data.attrs.map (fun kv => kv.1 ++ "=\"" ++ kv.2 ++ "\""))
        "<polyline points=\"" ++ polyline_points ++ "\" " ++ style_attrs ++ " id=\"way_" ++
          w.way_id ++ "\"/>\n"
    if svg_element = "" then (none, [])
    else (some (w.style_data.z_order, svg_element), [])

/-- The way loop of `main` over a batch of ways: collects the emitted
features (with z-order) in order, together with everything printed. -/
def collect_way_features (sqrt_ : ℚ → ℚ) (parse_float : String → ℚ)
    (ws : List WayFeature) : List (ℤ × String) × List String :=
  ws.foldl
    (fun acc w =>
      let r := way_step sqrt_ parse_float w
      (acc.1 ++ r.1.toList, acc.2 ++ r.2))
    ([], [])

/-! ## `svg_points2path.py`: auto-smooth curve fitter -/

/-- The segment kinds handled by `smooth_path_segments`: `svgpathtools`
`Line` and `CubicBezier` objects (points as complex numbers, embedded as
pairs). -/
inductive Segment where
  | line (p1 p2 : Q2)
  | cubic (p0 c1 c2 p3 : Q2)
deriving Inhabited, DecidableEq, Repr

/-- Start point of a segment. -/
def Segment.start : Segment → Q2
  | .line p1 _ => p1
  | .cubic p0 _ _ _ => p0

/-- End point of a segment. -/
def Segment.endp : Segment → Q2
  | .line _ p2 => p2
  | .cubic _ _ _ p3 => p3

/-- Whether a segment is a cubic curve. -/
def Segment.isCubic : Segment → Bool
  | .line _ _ => false
  | .cubic _ _ _ _ => true

/-- The Line-to-CubicBezier conversion of `smooth_path_segments` (lines
81-92): control points at `P1 + V/3` and `P2 - V/3`; other segment kinds are
kept as they are. -/
def to_cubic : Segment → Segment
  | .line p1 p2 =>
    .cubic p1 (p1 + (1 / 3 : ℚ) • (p2 - p1)) (p2 - (1 / 3 : ℚ) • (p2 - p1)) p2
  | s => s

/-- Source constant `SMOOTH_TIGHTNESS_FACTOR = 0.5` (line 67). -/
def SMOOTH_TIGHTNESS_FACTOR : ℚ := 1 / 2

/-- `get_auto_smooth_controls` (lines 12-65): the back handle `C1` and front
handle `C2` of an auto-smooth node, with the reflex-angle flip of the unit
tangent.  `abs_` stands for the complex modulus of the host language.
When the direction vector `D` vanishes (a straight-continuation node), the
source evaluates `D / abs(D)` with `abs(D) == 0` on line 51 or 53 and
raises `ZeroDivisionError`; that error path is `none`. -/
def get_auto_smooth_controls (abs_ : Q2 → ℚ) (P_prev P_i P_next : Q2)
    (tightness_factor : ℚ) : Option (Q2 × Q2) :=
  let V_prev := P_i - P_prev
  let V_next := P_next - P_i
  let L_prev := abs_ V_prev
  let L_next := abs_ V_next
  if L_prev = 0 ∨ L_next = 0 then some (P_i, P_i)
  else
    let D := (L_prev / L_next) • V_next - V_prev
    if abs_ D = 0 then none
    else
      let signed_angle_z := V_prev.1 * V_next.2 - V_prev.2 * V_next.1
      let T_unit := if signed_angle_z < 0 then mulI ((1 / abs_ D) • D)
        else mulNegI ((1 / abs_ D) • D)
      let handle_len_prev := L_prev / 3 * tightness_factor
      let handle_len_next := L_next / 3 * tightness_factor
      some (P_i - handle_len_prev • T_unit, P_i + handle_len_next • T_unit)

/-- Node extraction of `smooth_path_segments` (lines 95-96): the segment
start points followed by the last segment's end point. -/
def nodes_of (cubic_segments : List Segment) : List Q2 :=
  cubic_segments.map Segment.start ++ [(cubic_segments.getLastD default).endp]

/-- One iteration of the smoothing loop of `smooth_path_segments` (lines
106-142) over node index `j`, producing the cubic segment from node `j` to
node `j+1`; `none` when either control-point computation raises. -/
def mk_smooth_seg (abs_ : Q2 → ℚ) (ns : List Q2) (is_closed : Bool) (j : ℕ) :
    Option Segment :=
  let n := ns.length
  let P_i := ns.getD j (0, 0)
  let P_next := ns.getD (j + 1) (0, 0)
  let P_prev :=
    if j = 0 then (if is_closed then ns.getD (n - 2) (0, 0) else P_i)
    else ns.getD (j - 1) (0, 0)
  let P_next_next :=
    if j = n - 2 then (if is_closed then ns.getD 1 (0, 0) else P_next)
    else ns.getD (j + 2) (0, 0)
  let oC2_i :=
    if is_closed || 0 < j then
      Option.map Prod.snd
        (get_auto_smooth_controls abs_ P_prev P_i P_next SMOOTH_TIGHTNESS_FACTOR)
    else
      Option.map Prod.fst
        (get_auto_smooth_controls abs_ P_i P_next P_next_next SMOOTH_TIGHTNESS_FACTOR)
  let oC1_next :=
    if is_closed || j < n - 2 then
      Option.map Prod.fst
        (get_auto_smooth_controls abs_ P_i P_next P_next_next SMOOTH_TIGHTNESS_FACTOR)
    else
      Option.map (fun c => P_next - (c.2 - P_i))
        (get_auto_smooth_controls abs_ P_prev P_i P_next SMOOTH_TIGHTNESS_FACTOR)
  match oC2_i, oC1_next with
  | some C2_i, some C1_next => some (Segment.cubic P_i C2_i C1_next P_next)
  | _, _ => none

/-- The smoothing loop over the node indices: appends one smoothed segment
per index, aborting (as the source's uncaught exception does) as soon as
one iteration raises. -/
def traverse_mk (abs_ : Q2 → ℚ) (ns : List Q2) (is_closed : Bool) :
    List ℕ → Option (List Segment)
  | [] => some []
  | j :: js =>
    match mk_smooth_seg abs_ ns is_closed j with
    | none => none
    | some s => Option.map (fun rest => s :: rest) (traverse_mk abs_ ns is_closed js)

/-- `smooth_path_segments` (lines 68-145): empty input passes through, every
Line is converted to a cubic, paths with at most two nodes are returned
after that conversion only, and otherwise the smoothing loop rebuilds one
cubic per consecutive node pair.  The result is `none` when any iteration
of the loop raises `ZeroDivisionError` (the exception escapes this
function). -/
def smooth_path_segments (abs_ : Q2 → ℚ) (original_path_segments : List Segment)
    (is_closed : Bool) : Option (List Segment) :=
  match original_path_segments with
  | [] => some []
  | _ =>
    let cubic_segments := original_path_segments.map to_cubic
    let ns := nodes_of cubic_segments
    if ns.length ≤ 2 then some cubic_segments
    else traverse_mk abs_ ns is_closed (List.range (ns.length - 1))

/-- Model of the complex modulus on pair-embedded points, exact on
rational-square norms (cf. `ratSqrt`). -/
def absModel (p : Q2) : ℚ := ratSqrt (p.1 * p.1 + p.2 * p.2)

/-! ## Concrete inputs used by the evaluations below -/

/-- The closed square polyline of spec §8: vertices `(0,0), (10,0), (10,10),
(0,10)`, closure expressed—as in the source's closed ways—by repeating the
first vertex. -/
def square5 : List Q2 := [(0, 0), (10, 0), (10, 10), (0, 10), (0, 0)]

/-- A single horizontal polyline segment of length 10. -/
def pts2 : List Q2 := [(0, 0), (10, 0)]

/-- A closed unit-square ring. -/
def ringQ : List Q2 := [(0, 0), (1, 0), (1, 1), (0, 1), (0, 0)]

/-- Two rings as returned by the offsetting primitive: a 2-vertex ring and a
3-vertex ring. -/
def ringsEx : List (List (ℤ × ℤ)) := [[(1500, -500), (2000, 0)], [(0, 0), (1, 1), (2, 2)]]

/-- A way whose projected coordinate list has a single point. -/
def shortWay : WayFeature := ⟨"w1", "t", ⟨"", false, 0, 0, []⟩, [(0, 0)]⟩

/-- A well-formed two-point styled way. -/
def goodWay : WayFeature := ⟨"w2", "t", ⟨"", false, 0, 5, [("stroke", "red")]⟩, [(0, 0), (1, 1)]⟩

/-- A two-segment open polyline path whose interior node is a straight
continuation: both segments run along the positive x-axis, so the smoothing
direction vector `D` vanishes there. -/
def segsCol : List Segment := [Segment.line (0, 0) (1, 0), Segment.line (1, 0) (2, 0)]

/-- A two-segment open polyline path bending at `(3, 4)`: both segment
lengths (5) and the direction vector's modulus (8) are rational, so the
square-root model is exact on every smoothing computation it triggers. -/
def segsW : List Segment := [Segment.line (0, 0) (3, 4), Segment.line (3, 4) (6, 0)]

/-- Projection environment holding one way `w` that references the single
node `1` at the origin. -/
def exEnv : OsmEnv := ⟨[("w", ["1"])], [("1", (0, 0))], 0, 0, 1, 1, 0⟩

/-- Projection environment holding one way `w` with two resolvable nodes. -/
def exEnv2 : OsmEnv := ⟨[("w", ["1", "2"])], [("1", (0, 0)), ("2", (10, 0))], 0, 0, 1, 1, 0⟩

/-! # Theorems -/

/-! ## General helper lemmas -/

/-- The fold of `maxByLen` picks an element of the candidate list. -/
theorem foldl_maxByLen_mem (rs : List (List (ℤ × ℤ))) (b : List (ℤ × ℤ)) :
    rs.foldl (fun best x => if best.length < x.length then x else best) b ∈ b :: rs := by
  induction rs generalizing b with
  | nil => simp
  | cons r rs ih =>
    simp only [List.foldl_cons]
    by_cases hbr : b.length < r.length
    · rw [if_pos hbr]
      rcases List.mem_cons.mp (ih r) with h1 | h1
      · rw [h1]; simp
      · exact List.mem_cons.mpr (Or.inr (List.mem_cons.mpr (Or.inr h1)))
    · rw [if_neg hbr]
      rcases List.mem_cons.mp (ih b) with h1 | h1
      · rw [h1]; simp
      · exact List.mem_cons.mpr (Or.inr (List.mem_cons.mpr (Or.inr h1)))

/-- The fold of `maxByLen` dominates the seed and every candidate in
length. -/
theorem foldl_maxByLen_ge (rs : List (List (ℤ × ℤ))) (b : List (ℤ × ℤ)) :
    b.length ≤ (rs.foldl (fun best x => if best.length < x.length then x else best) b).length ∧
      ∀ x ∈ rs,
        x.length ≤ (rs.foldl (fun best x => if best.length < x.length then x else best) b).length := by
  induction rs generalizing b with
  | nil => simp
  | cons r rs ih =>
    simp only [List.foldl_cons]
    have hseed : b.length ≤ (if b.length < r.length then r else b).length := by
      split <;> omega
    have hr : r.length ≤ (if b.length < r.length then r else b).length := by
      split <;> omega
    refine ⟨le_trans hseed (ih _).1, ?_⟩
    intro x hx
    rcases List.mem_cons.mp hx with rfl | hx
    · exact le_trans hr (ih _).1
    · exact (ih _).2 x hx

/-- Successful node resolution consumes every node reference: the formatted
point list has the same length as the reference list. -/
theorem way_points_length (env : OsmEnv) (refs : List String) (pts : List String)
    (h : way_points env refs = some pts) : pts.length = refs.length := by
  induction refs generalizing pts with
  | nil =>
    simp only [way_points] at h
    cases h
    rfl
  | cons r rs ih =>
    simp only [way_points] at h
    cases hl : env.nodes.lookup r with
    | none => rw [hl] at h; cases h
    | some ll =>
      rw [hl] at h
      rcases Option.map_eq_some'.mp h with ⟨ps, hps, rfl⟩
      simp [ih ps hps]

/-- Rounding an integer-valued rational is the identity. -/
theorem round_half_even_int (n : ℤ) : round_half_even (n : ℚ) = n := by
  rw [round_half_even]
  norm_num

/-- Evaluation rule for `fmt4` once the scaled coordinate is known to be the
integer `n`. -/
theorem fmt4_eval (q : ℚ) (n : ℤ) (h : q * 10000 = (n : ℚ)) :
    fmt4 q = (if n < 0 then "-" else "") ++ toString (n.natAbs / 10000) ++ "." ++
      padZeros 4 (toString (n.natAbs % 10000)) := by
  rw [fmt4, h, round_half_even_int]

/-- Concrete formatting fact: `fmt4 0 = "0.0000"`. -/
theorem fmt4_zero : fmt4 0 = "0.0000" := by
  rw [fmt4_eval 0 0 (by norm_num)]; decide

/-- Concrete formatting fact: `fmt4 1 = "1.0000"`. -/
theorem fmt4_one : fmt4 1 = "1.0000" := by
  rw [fmt4_eval 1 10000 (by norm_num)]; decide

/-- Concrete formatting fact: `fmt4 10 = "10.0000"`. -/
theorem fmt4_ten : fmt4 10 = "10.0000" := by
  rw [fmt4_eval 10 100000 (by norm_num)]; decide

/-- The square-root model is exact at `100`, the squared segment length
arising in the concrete stroke inputs. -/
theorem ratSqrt_100 : ratSqrt 100 = 10 := by
  have h1 : ((100 : ℚ).num).toNat = 100 := by
    rw [show (100 : ℚ).num = (100 : ℤ) by norm_num]
    rfl
  have h2 : (100 : ℚ).den = 1 := by norm_num
  have h3 : Nat.sqrt 100 = 10 := by rw [show (100 : ℕ) = 10 * 10 by norm_num, Nat.sqrt_eq]
  rw [ratSqrt, h1, h2, h3]
  norm_num

/-- The square-root model is exact at `0` (as `math.sqrt(0.0)` is). -/
theorem ratSqrt_zero : ratSqrt 0 = 0 := by
  have h1 : ((0 : ℚ).num).toNat = 0 := by
    rw [show (0 : ℚ).num = (0 : ℤ) by norm_num]
    rfl
  have h2 : (0 : ℚ).den = 1 := by norm_num
  have h3 : Nat.sqrt 0 = 0 := by rw [show (0 : ℕ) = 0 * 0 by norm_num, Nat.sqrt_eq]
  rw [ratSqrt, h1, h2, h3]
  norm_num

/-- The square-root model is exact at `1`. -/
theorem ratSqrt_one : ratSqrt 1 = 1 := by
  have h1 : ((1 : ℚ).num).toNat = 1 := by
    rw [show (1 : ℚ).num = (1 : ℤ) by norm_num]
    rfl
  have h2 : (1 : ℚ).den = 1 := by norm_num
  have h3 : Nat.sqrt 1 = 1 := by rw [show (1 : ℕ) = 1 * 1 by norm_num, Nat.sqrt_eq]
  rw [ratSqrt, h1, h2, h3]
  norm_num

/-- The square-root model is exact at `25`. -/
theorem ratSqrt_25 : ratSqrt 25 = 5 := by
  have h1 : ((25 : ℚ).num).toNat = 25 := by
    rw [show (25 : ℚ).num = (25 : ℤ) by norm_num]
    rfl
  have h2 : (25 : ℚ).den = 1 := by norm_num
  have h3 : Nat.sqrt 25 = 5 := by rw [show (25 : ℕ) = 5 * 5 by norm_num, Nat.sqrt_eq]
  rw [ratSqrt, h1, h2, h3]
  norm_num

/-- The square-root model is exact at `64`. -/
theorem ratSqrt_64 : ratSqrt 64 = 8 := by
  have h1 : ((64 : ℚ).num).toNat = 64 := by
    rw [show (64 : ℚ).num = (64 : ℤ) by norm_num]
    rfl
  have h2 : (64 : ℚ).den = 1 := by norm_num
  have h3 : Nat.sqrt 64 = 8 := by rw [show (64 : ℕ) = 8 * 8 by norm_num, Nat.sqrt_eq]
  rw [ratSqrt, h1, h2, h3]
  norm_num

/-! ## C2: adaptive sample count -/

/-- C2 counterexample: at arc length `L = 401/8` the implementation computes
`max(200, int(4·L)) = 200` samples, while the claimed formula
`max(minSamples, ceil(L × samplesPerUnitLength))` gives `201`. -/
theorem num_samples_trunc_cex :
    num_samples (401 / 8) = 200 ∧
      max MIN_SAMPLES ⌈(401 / 8 : ℚ) * SAMPLES_PER_UNIT_LENGTH⌉ = 201 := by
  have h : ((401 : ℚ) / 8) * SAMPLES_PER_UNIT_LENGTH = 401 / 2 := by
    norm_num [SAMPLES_PER_UNIT_LENGTH]
  have hceil : ⌈(401 : ℚ) / 2⌉ = 201 := by
    rw [Int.ceil_eq_iff]
    constructor <;> norm_num
  constructor
  · rw [num_samples, int_trunc, if_pos (by rw [h]; norm_num), h, MIN_SAMPLES]
    norm_num
  · rw [h, hceil, MIN_SAMPLES]
    decide

/-- C2 amended: for every nonnegative arc length `L`, the corrector samples
the path at exactly `max(minSamples, floor(L × samplesPerUnitLength))`
(truncation, not ceiling) evenly spaced parameter values in `[0, 1]`, with
`minSamples = 200` and `samplesPerUnitLength = 4`. -/
theorem num_samples_floor_spec (L : ℚ) (h : 0 ≤ L) :
    num_samples L = max 200 ⌊L * SAMPLES_PER_UNIT_LENGTH⌋ ∧
    (t_values (num_samples L).toNat).length = (num_samples L).toNat ∧
    ∀ j : ℕ, j < (num_samples L).toNat →
      (t_values (num_samples L).toNat)[j]? =
        some ((j : ℚ) / (((num_samples L).toNat : ℚ) - 1)) := by
  refine ⟨?_, by rw [t_values, List.length_map, List.length_range], ?_⟩
  · have h4 : (0 : ℚ) ≤ L * SAMPLES_PER_UNIT_LENGTH := by
      have : (0 : ℚ) ≤ SAMPLES_PER_UNIT_LENGTH := by norm_num [SAMPLES_PER_UNIT_LENGTH]
      exact mul_nonneg h this
    rw [num_samples, int_trunc, if_pos h4, MIN_SAMPLES, max_comm]
  · intro j hj
    rw [t_values, List.getElem?_map, List.getElem?_range hj, Option.map_some']

/-- C2 witness: the amended sample-count formula evaluated at `L = 401/8`. -/
theorem num_samples_floor_spec_witness :
    (0 : ℚ) ≤ 401 / 8 ∧
      (num_samples (401 / 8) = max 200 ⌊(401 / 8 : ℚ) * SAMPLES_PER_UNIT_LENGTH⌋ ∧
        (t_values (num_samples (401 / 8)).toNat).length = (num_samples (401 / 8)).toNat ∧
        ∀ j : ℕ, j < (num_samples (401 / 8)).toNat →
          (t_values (num_samples (401 / 8)).toNat)[j]? =
            some ((j : ℚ) / (((num_samples (401 / 8)).toNat : ℚ) - 1))) :=
  ⟨by norm_num, num_samples_floor_spec (401 / 8) (by norm_num)⟩

/-! ## C3: auto-smooth pass-through for degenerate paths -/

/-- C3 counterexample: a single-Line path (two nodes) is not returned
unmodified — the Line is converted to its straight cubic. -/
theorem smooth_two_node_cex :
    smooth_path_segments absModel [Segment.line (0, 0) (3, 0)] false ≠
        some [Segment.line (0, 0) (3, 0)] ∧
      smooth_path_segments absModel [Segment.line (0, 0) (3, 0)] false =
        some [Segment.cubic (0, 0) (1, 0) (2, 0) (3, 0)] := by
  have h : smooth_path_segments absModel [Segment.line (0, 0) (3, 0)] false =
      some [Segment.cubic (0, 0) (1, 0) (2, 0) (3, 0)] := by
    norm_num [smooth_path_segments, nodes_of, to_cubic, Prod.smul_mk, Prod.mk_add_mk,
      Prod.mk_sub_mk, smul_eq_mul]
  refine ⟨?_, h⟩
  rw [h]
  simp

/-- C3 amended: a path with at most one segment (at most two nodes) is
passed through with no smoothing, but with every Line segment converted to
its straight-tangent cubic. -/
theorem smooth_two_node_passthrough (abs_ : Q2 → ℚ) (segs : List Segment) (closed : Bool)
    (h : segs.length ≤ 1) :
    smooth_path_segments abs_ segs closed = some (segs.map to_cubic) := by
  match segs, h with
  | [], _ => rfl
  | [s], _ => simp [smooth_path_segments, nodes_of]

/-- C3 witness: the amended pass-through evaluated on a single-Line path. -/
theorem smooth_two_node_passthrough_witness :
    ([Segment.line (0, 0) (3, 0)] : List Segment).length ≤ 1 ∧
      smooth_path_segments absModel [Segment.line (0, 0) (3, 0)] false =
        some ([Segment.line (0, 0) (3, 0)].map to_cubic) :=
  ⟨by decide, smooth_two_node_passthrough absModel [Segment.line (0, 0) (3, 0)] false (by decide)⟩

/-! ## C4: degenerate stroke input is skipped silently -/

/-- C4 counterexample: a batch containing a one-point way and a well-formed
way produces one feature and an empty log — nothing is printed for the
skipped feature. -/
theorem way_skip_unlogged_cex :
    (collect_way_features ratSqrt (fun _ => 1) [shortWay, goodWay]).2 = [] ∧
      (collect_way_features ratSqrt (fun _ => 1) [shortWay, goodWay]).1.length = 1 := by
  have hshort : way_step ratSqrt (fun _ => 1) shortWay = (none, []) := by
    simp [way_step, shortWay]
  have hgood : way_step ratSqrt (fun _ => 1) goodWay =
      (some (5,
        "<polyline points=\"0.0000 0.0000 1.0000 1.0000\" stroke=\"red\" id=\"way_w2\"/>\n"),
       []) := by
    simp only [way_step, goodWay, List.length_cons, List.length_nil, List.map_cons,
      List.map_nil, fmt4_zero, fmt4_one]
    norm_num [List.lookup]
    decide
  simp [collect_way_features, hshort, hgood]

/-- C4 amended: for a way with fewer than two projected coordinates, the
stroke-to-outline conversion returns the empty string, the way loop skips
the feature without logging anything, and processing of the remaining
features continues unchanged. -/
theorem way_skip_silent (sqrt_ : ℚ → ℚ) (parse_float : String → ℚ) (w : WayFeature)
    (ws : List WayFeature) (h : w.way_coords.length < 2) :
    (∀ sw attrs cr st, convert_stroke_to_path sqrt_ w.way_coords sw attrs cr st = "") ∧
    way_step sqrt_ parse_float w = (none, []) ∧
    collect_way_features sqrt_ parse_float (w :: ws) =
      collect_way_features sqrt_ parse_float ws := by
  have hstep : way_step sqrt_ parse_float w = (none, []) := by
    simp [way_step, h]
  refine ⟨?_, hstep, ?_⟩
  · intro sw attrs cr st
    simp [convert_stroke_to_path, h]
  · simp [collect_way_features, hstep]

/-- C4 witness: the silent skip evaluated on the concrete batch. -/
theorem way_skip_silent_witness :
    shortWay.way_coords.length < 2 ∧
      ((∀ sw attrs cr st, convert_stroke_to_path ratSqrt shortWay.way_coords sw attrs cr st = "") ∧
        way_step ratSqrt (fun _ => 1) shortWay = (none, []) ∧
        collect_way_features ratSqrt (fun _ => 1) (shortWay :: [goodWay]) =
          collect_way_features ratSqrt (fun _ => 1) [goodWay]) :=
  ⟨by decide, way_skip_silent ratSqrt (fun _ => 1) shortWay [goodWay] (by decide)⟩

/-! ## C5 and C6: stroke-to-outline evaluations -/

/-- Per-segment data of the closed unit-10 square under stroke width 2, for
any square root agreeing with the exact value at `100`. -/
theorem seg5 (sqrt_ : ℚ → ℚ) (h : sqrt_ 100 = 10) :
    segments_data sqrt_ square5 (2 / 2) =
      [⟨10, 0, 1, (0, 1), (10, 1), (0, -1), (10, -1)⟩,
       ⟨10, -1, 0, (9, 0), (9, 10), (11, 0), (11, 10)⟩,
       ⟨10, 0, -1, (10, 9), (0, 9), (10, 11), (0, 11)⟩,
       ⟨10, 1, 0, (1, 10), (1, 0), (-1, 10), (-1, 0)⟩] := by
  simp only [segments_data, square5, List.zip, List.zipWith, List.tail_cons, List.map]
  norm_num [get_normal, h]

set_option maxHeartbeats 1000000 in
/-- Outline vertices for the closed square with butt caps and miter joints:
the forward rail runs inside, the reverse rail outside. -/
theorem outline5 (sqrt_ : ℚ → ℚ) (h : sqrt_ 100 = 10) :
    stroke_outline sqrt_ square5 2 [] (999 / 1000) =
      [(0, 1), (9, 1), (9, 9), (1, 9), (1, 0), (-1, 0), (-1, 11), (11, 11), (11, -1), (0, -1)] := by
  have hb : str_lower ((List.lookup "stroke-linecap" ([] : List (String × String))).getD "butt")
      = "butt" := by decide
  have hbs : (("butt" : String) = "square") = False := by simp
  simp only [stroke_outline, hb, hbs, if_false, ite_false]
  rw [seg5 sqrt_ h, show square5.length = 5 by decide]
  norm_num [joint, intersect_lines, List.range_succ, List.getD_cons_zero, List.getD_cons_succ]

/-- C5: stroke-to-outline on the closed square polyline
`(0,0), (10,0), (10,10), (0,10)` with width 2, butt caps and straightness
threshold `0.999` yields a closed outline whose axis-aligned bounding box is
exactly `[-1,-1]` to `[11,11]`. -/
theorem stroke_square_bbox (sqrt_ : ℚ → ℚ) (h : sqrt_ 100 = 10) :
    bbox (stroke_outline sqrt_ square5 2 [] (999 / 1000)) = some ((-1, -1), (11, 11)) ∧
    convert_stroke_to_path sqrt_ square5 2 [] 0 (999 / 1000) =
      render_outline (stroke_outline sqrt_ square5 2 [] (999 / 1000)) ∧
    ∃ s, convert_stroke_to_path sqrt_ square5 2 [] 0 (999 / 1000) = s ++ " Z" := by
  have hout := outline5 sqrt_ h
  have hcv : convert_stroke_to_path sqrt_ square5 2 [] 0 (999 / 1000) =
      render_outline (stroke_outline sqrt_ square5 2 [] (999 / 1000)) := by
    rw [convert_stroke_to_path, if_neg (by rw [show square5.length = 5 by decide]; omega)]
  refine ⟨?_, hcv, ?_⟩
  · rw [hout]
    norm_num [bbox]
  · rw [hcv, hout]
    exact ⟨_, rfl⟩

/-- C5 witness: the bounding-box evaluation with the concrete square-root
model. -/
theorem stroke_square_bbox_witness :
    ratSqrt 100 = 10 ∧
      (bbox (stroke_outline ratSqrt square5 2 [] (999 / 1000)) = some ((-1, -1), (11, 11)) ∧
       convert_stroke_to_path ratSqrt square5 2 [] 0 (999 / 1000) =
         render_outline (stroke_outline ratSqrt square5 2 [] (999 / 1000)) ∧
       ∃ s, convert_stroke_to_path ratSqrt square5 2 [] 0 (999 / 1000) = s ++ " Z") :=
  ⟨ratSqrt_100, stroke_square_bbox ratSqrt ratSqrt_100⟩

/-- Per-segment data of the single horizontal segment under stroke width
2. -/
theorem seg2 (sqrt_ : ℚ → ℚ) (h : sqrt_ 100 = 10) :
    segments_data sqrt_ pts2 (2 / 2) = [⟨10, 0, 1, (0, 1), (10, 1), (0, -1), (10, -1)⟩] := by
  simp only [segments_data, pts2, List.zip, List.zipWith, List.tail_cons, List.map]
  norm_num [get_normal, h]

/-- C6: with cap style `square` on the horizontal two-point polyline
`(0,0)-(10,0)` of width 2, the code shifts the rail endpoints along the
segment's perpendicular normal — the outline starts at `(0,0)` and runs to
`(10,2), (10,0), (0,-2)` — while the spec's square-cap extension along the
segment direction would place the start rail point at `(-1,1)` and the end
rail point at `(11,1)`. -/
theorem square_cap_normal_shift (sqrt_ : ℚ → ℚ) (h : sqrt_ 100 = 10) :
    stroke_outline sqrt_ pts2 2 [("stroke-linecap", "square")] (999 / 1000) =
      [(0, 0), (10, 2), (10, 0), (0, -2)] ∧
    spec_square_cap_extend sqrt_ (10, 0) (0, 0) (0, 1) 1 = (-1, 1) ∧
    spec_square_cap_extend sqrt_ (0, 0) (10, 0) (10, 1) 1 = (11, 1) := by
  have hsq : str_lower
      ((List.lookup "stroke-linecap" [("stroke-linecap", "square")]).getD "butt") = "square" := by
    decide
  refine ⟨?_, ?_, ?_⟩
  · simp only [stroke_outline, hsq]
    rw [seg2 sqrt_ h, show pts2.length = 2 by decide]
    norm_num [pts2, get_normal, h, List.getD_cons_zero, List.getD_cons_succ, List.range_zero]
  · norm_num [spec_square_cap_extend, h]
  · norm_num [spec_square_cap_extend, h]

/-- C6 witness: the square-cap evaluation with the concrete square-root
model. -/
theorem square_cap_normal_shift_witness :
    ratSqrt 100 = 10 ∧
      (stroke_outline ratSqrt pts2 2 [("stroke-linecap", "square")] (999 / 1000) =
        [(0, 0), (10, 2), (10, 0), (0, -2)] ∧
       spec_square_cap_extend ratSqrt (10, 0) (0, 0) (0, 1) 1 = (-1, 1) ∧
       spec_square_cap_extend ratSqrt (0, 0) (10, 0) (10, 1) 1 = (11, 1)) :=
  ⟨ratSqrt_100, square_cap_normal_shift ratSqrt ratSqrt_100⟩

/-! ## C9: structural invariants of auto-smoothing -/

/-- Line-to-cubic conversion preserves the start point. -/
theorem to_cubic_start (s : Segment) : (to_cubic s).start = s.start := by
  cases s <;> rfl

/-- Line-to-cubic conversion preserves the end point. -/
theorem to_cubic_endp (s : Segment) : (to_cubic s).endp = s.endp := by
  cases s <;> rfl

/-- A successfully smoothed segment is a cubic running from node `j` to node
`j + 1`. -/
theorem mk_smooth_seg_shape (abs_ : Q2 → ℚ) (ns : List Q2) (c : Bool) (j : ℕ) (s : Segment)
    (h : mk_smooth_seg abs_ ns c j = some s) :
    s.start = ns.getD j (0, 0) ∧ s.endp = ns.getD (j + 1) (0, 0) ∧ s.isCubic = true := by
  simp only [mk_smooth_seg] at h
  split at h
  · cases h
    exact ⟨rfl, rfl, rfl⟩
  · cases h

/-- A successful smoothing loop emits one segment per index. -/
theorem traverse_mk_length (abs_ : Q2 → ℚ) (ns : List Q2) (c : Bool) (js : List ℕ)
    (out : List Segment) (h : traverse_mk abs_ ns c js = some out) :
    out.length = js.length := by
  induction js generalizing out with
  | nil =>
    simp only [traverse_mk] at h
    cases h
    rfl
  | cons j0 js ih =>
    simp only [traverse_mk] at h
    cases hmk : mk_smooth_seg abs_ ns c j0 with
    | none => rw [hmk] at h; cases h
    | some s0 =>
      rw [hmk] at h
      rcases Option.map_eq_some'.mp h with ⟨rest, hrest, rfl⟩
      simp [ih rest hrest]

/-- A successful smoothing loop's entry at position `i` is the smoothed
segment of the index stored there. -/
theorem traverse_mk_getElem (abs_ : Q2 → ℚ) (ns : List Q2) (c : Bool) (j : ℕ)
    (js : List ℕ) (out : List Segment) (h : traverse_mk abs_ ns c js = some out) (i : ℕ)
    (hj : js[i]? = some j) :
    ∃ s, mk_smooth_seg abs_ ns c j = some s ∧ out[i]? = some s := by
  induction js generalizing out i with
  | nil => simp at hj
  | cons j0 js ih =>
    simp only [traverse_mk] at h
    cases hmk : mk_smooth_seg abs_ ns c j0 with
    | none => rw [hmk] at h; cases h
    | some s0 =>
      rw [hmk] at h
      rcases Option.map_eq_some'.mp h with ⟨rest, hrest, rfl⟩
      cases i with
      | zero =>
        simp only [List.getElem?_cons_zero] at hj
        injection hj with hj0
        subst hj0
        exact ⟨s0, hmk, by simp⟩
      | succ i =>
        simp only [List.getElem?_cons_succ] at hj
        rcases ih rest hrest i hj with ⟨s, hs, hout⟩
        exact ⟨s, hs, by simpa using hout⟩

/-- The node list has one node more than the segment list. -/
theorem nodes_of_length (c : List Segment) : (nodes_of c).length = c.length + 1 := by
  simp [nodes_of]

/-- Indexing through the Line-to-cubic conversion. -/
theorem getD_map_to_cubic (l : List Segment) (i : ℕ) (hi : i < l.length) :
    (l.map to_cubic).getD i default = to_cubic (l.getD i default) := by
  rw [List.getD_eq_getElem?_getD, List.getElem?_map, List.getD_eq_getElem?_getD,
    List.getElem?_eq_getElem hi]
  simp

/-- Node `j` (below the segment count) is segment `j`'s start point. -/
theorem nodes_of_getD_lt (c : List Segment) (j : ℕ) (hj : j < c.length) :
    (nodes_of c).getD j (0, 0) = (c.getD j default).start := by
  rw [nodes_of, List.getD_append _ _ _ j (by simpa using hj),
    List.getD_eq_getElem?_getD, List.getElem?_map, List.getD_eq_getElem?_getD,
    List.getElem?_eq_getElem hj]
  simp

/-- The final node is the last segment's end point. -/
theorem nodes_of_getD_last (c : List Segment) :
    (nodes_of c).getD c.length (0, 0) = (c.getD (c.length - 1) default).endp := by
  rw [nodes_of, List.getD_append_right _ _ _ _ (by simp)]
  simp only [List.length_map, Nat.sub_self, List.getD_cons_zero]
  rw [List.getLastD_eq_getLast?, List.getLast?_eq_getElem?, List.getD_eq_getElem?_getD]

/-- On a path with at least two segments, a successful smoothing run is a
successful loop over the node indices. -/
theorem smooth_success (abs_ : Q2 → ℚ) (segs : List Segment) (closed : Bool)
    (out : List Segment) (h2 : 2 ≤ segs.length)
    (hout : smooth_path_segments abs_ segs closed = some out) :
    traverse_mk abs_ (nodes_of (segs.map to_cubic)) closed (List.range segs.length) =
      some out := by
  obtain ⟨a, as, rfl⟩ : ∃ a as, segs = a :: as := by
    cases segs with
    | nil => simp at h2
    | cons a as => exact ⟨a, as, rfl⟩
  have hns : (nodes_of ((a :: as).map to_cubic)).length = as.length + 2 := by
    rw [nodes_of_length]
    simp
  have hcond : ¬((nodes_of (List.map to_cubic (a :: as))).length ≤ 2) := by
    rw [hns]
    simp only [List.length_cons] at h2
    omega
  simp only [smooth_path_segments] at hout
  rw [if_neg hcond] at hout
  rw [show (nodes_of (List.map to_cubic (a :: as))).length - 1 = (a :: as).length by
    rw [hns]; simp] at hout
  exact hout

/-- C9 counterexample: on the connected two-segment collinear path the
interior node's direction vector `D` vanishes, the source raises
`ZeroDivisionError` computing `D / abs(D)`, and auto-smoothing produces no
output at all — no structured result exists for this >2-node input. -/
theorem smooth_collinear_raises_cex :
    2 ≤ segsCol.length ∧
    (∀ i : ℕ, i + 1 < segsCol.length →
      (segsCol.getD i default).endp = (segsCol.getD (i + 1) default).start) ∧
    smooth_path_segments absModel segsCol false = none := by
  refine ⟨by decide, ?_, ?_⟩
  · intro i hi
    simp only [segsCol, List.length_cons, List.length_nil] at hi
    have h0 : i = 0 := by omega
    subst h0
    decide
  · norm_num [smooth_path_segments, segsCol, nodes_of, to_cubic, traverse_mk, mk_smooth_seg,
      get_auto_smooth_controls, absModel, ratSqrt_one, ratSqrt_zero, Segment.start,
      Segment.endp, Prod.smul_mk, Prod.mk_add_mk, Prod.mk_sub_mk, smul_eq_mul,
      List.range_succ, List.getD_cons_zero, List.getD_cons_succ]

/-- C9 amended: whenever auto-smoothing completes without raising (no
interior node has a vanishing direction vector), it preserves path
structure — on every input with more than two nodes satisfying the Path
connectivity invariant, the output has one cubic segment per input segment
with the same start and end points (so the same node count and node
positions as the 1/3-2/3 straight conversion), and consecutive output
segments share their boundary point. -/
theorem smooth_structure (abs_ : Q2 → ℚ) (segs : List Segment) (closed : Bool)
    (out : List Segment) (h2 : 2 ≤ segs.length)
    (hconn : ∀ i : ℕ, i + 1 < segs.length →
      (segs.getD i default).endp = (segs.getD (i + 1) default).start)
    (hout : smooth_path_segments abs_ segs closed = some out) :
    out.length = segs.length ∧
    (∀ i : ℕ, i < segs.length →
      (out.getD i default).isCubic = true ∧
      (out.getD i default).start = (segs.getD i default).start ∧
      (out.getD i default).endp = (segs.getD i default).endp) ∧
    (∀ i : ℕ, i + 1 < segs.length →
      (out.getD i default).endp = (out.getD (i + 1) default).start) := by
  have hmap : (segs.map to_cubic).length = segs.length := by simp
  have hnode : ∀ i : ℕ, i < segs.length →
      (nodes_of (segs.map to_cubic)).getD i (0, 0) = (segs.getD i default).start := by
    intro i hi
    rw [nodes_of_getD_lt _ i (by rw [hmap]; exact hi), getD_map_to_cubic _ i hi, to_cubic_start]
  have hnode2 : ∀ i : ℕ, i < segs.length →
      (nodes_of (segs.map to_cubic)).getD (i + 1) (0, 0) = (segs.getD i default).endp := by
    intro i hi
    rcases Nat.lt_or_ge (i + 1) segs.length with hlt | hge
    · rw [hnode (i + 1) hlt, hconn i hlt]
    · have hieq : i + 1 = segs.length := by omega
      rw [show i + 1 = (segs.map to_cubic).length by rw [hmap]; exact hieq,
        nodes_of_getD_last _, hmap,
        getD_map_to_cubic _ _ (by omega : segs.length - 1 < segs.length), to_cubic_endp,
        show segs.length - 1 = i by omega]
  have htr := smooth_success abs_ segs closed out h2 hout
  have hidx : ∀ i : ℕ, i < segs.length →
      ∃ s, mk_smooth_seg abs_ (nodes_of (segs.map to_cubic)) closed i = some s ∧
        out.getD i default = s := by
    intro i hi
    rcases traverse_mk_getElem abs_ _ closed i _ out htr i (List.getElem?_range hi) with
      ⟨s, hs, hos⟩
    refine ⟨s, hs, ?_⟩
    rw [List.getD_eq_getElem?_getD, hos]
    rfl
  refine ⟨?_, ?_, ?_⟩
  · rw [traverse_mk_length abs_ _ closed _ out htr, List.length_range]
  · intro i hi
    rcases hidx i hi with ⟨s, hs, hos⟩
    rcases mk_smooth_seg_shape abs_ _ closed i s hs with ⟨hs1, hs2, hs3⟩
    rw [hos]
    exact ⟨hs3, by rw [hs1, hnode i hi], by rw [hs2, hnode2 i hi]⟩
  · intro i hi
    rcases hidx i (by omega) with ⟨s, hs, hos⟩
    rcases hidx (i + 1) hi with ⟨t, ht, hot⟩
    rcases mk_smooth_seg_shape abs_ _ closed i s hs with ⟨_, hs2, _⟩
    rcases mk_smooth_seg_shape abs_ _ closed (i + 1) t ht with ⟨ht1, _, _⟩
    rw [hos, hot, hs2, ht1]

/-- C9 witness: the structural invariants evaluated on a concrete
two-segment bent path on which smoothing succeeds with exact rational
arithmetic. -/
theorem smooth_structure_witness :
    (2 ≤ segsW.length ∧
      (∀ i : ℕ, i + 1 < segsW.length →
        (segsW.getD i default).endp = (segsW.getD (i + 1) default).start) ∧
      smooth_path_segments absModel segsW false =
        some [Segment.cubic (0, 0) (13 / 6, 4) (13 / 6, 4) (3, 4),
              Segment.cubic (3, 4) (23 / 6, 4) (31 / 6, 0) (6, 0)]) ∧
    ([Segment.cubic ((0 : ℚ), (0 : ℚ)) (13 / 6, 4) (13 / 6, 4) (3, 4),
      Segment.cubic (3, 4) (23 / 6, 4) (31 / 6, 0) (6, 0)].length = segsW.length ∧
     (∀ i : ℕ, i < segsW.length →
       (([Segment.cubic ((0 : ℚ), (0 : ℚ)) (13 / 6, 4) (13 / 6, 4) (3, 4),
          Segment.cubic (3, 4) (23 / 6, 4) (31 / 6, 0) (6, 0)].getD i default).isCubic = true ∧
        ([Segment.cubic ((0 : ℚ), (0 : ℚ)) (13 / 6, 4) (13 / 6, 4) (3, 4),
          Segment.cubic (3, 4) (23 / 6, 4) (31 / 6, 0) (6, 0)].getD i default).start =
          (segsW.getD i default).start ∧
        ([Segment.cubic ((0 : ℚ), (0 : ℚ)) (13 / 6, 4) (13 / 6, 4) (3, 4),
          Segment.cubic (3, 4) (23 / 6, 4) (31 / 6, 0) (6, 0)].getD i default).endp =
          (segsW.getD i default).endp)) ∧
     (∀ i : ℕ, i + 1 < segsW.length →
       ([Segment.cubic ((0 : ℚ), (0 : ℚ)) (13 / 6, 4) (13 / 6, 4) (3, 4),
         Segment.cubic (3, 4) (23 / 6, 4) (31 / 6, 0) (6, 0)].getD i default).endp =
         ([Segment.cubic ((0 : ℚ), (0 : ℚ)) (13 / 6, 4) (13 / 6, 4) (3, 4),
           Segment.cubic (3, 4) (23 / 6, 4) (31 / 6, 0) (6, 0)].getD (i + 1) default).start)) := by
  have hconn : ∀ i : ℕ, i + 1 < segsW.length →
      (segsW.getD i default).endp = (segsW.getD (i + 1) default).start := by
    intro i hi
    simp only [segsW, List.length_cons, List.length_nil] at hi
    have h0 : i = 0 := by omega
    subst h0
    decide
  have hout : smooth_path_segments absModel segsW false =
      some [Segment.cubic (0, 0) (13 / 6, 4) (13 / 6, 4) (3, 4),
            Segment.cubic (3, 4) (23 / 6, 4) (31 / 6, 0) (6, 0)] := by
    norm_num [smooth_path_segments, segsW, nodes_of, to_cubic, traverse_mk, mk_smooth_seg,
      get_auto_smooth_controls, absModel, SMOOTH_TIGHTNESS_FACTOR, ratSqrt_25, ratSqrt_64,
      Segment.start, Segment.endp, mulI, mulNegI, Prod.smul_mk, Prod.mk_add_mk,
      Prod.mk_sub_mk, smul_eq_mul, List.range_succ, List.getD_cons_zero,
      List.getD_cons_succ]
  exact ⟨⟨by decide, hconn, hout⟩,
    smooth_structure absModel segsW false _ (by decide) hconn hout⟩


/-! ## C1: the highest-priority feature under the compositor -/

/-- C1 counterexample: on a single polygon carrying a collinear vertex the
compositor's output entry for the highest-priority polygon is its
vertex-reduced simplification, not the bit-for-bit input. -/
theorem clip_top_unchanged_cex :
    (clip_overlapping_paths dpGeo [ringP]).head? ≠ some (some ringP) ∧
      (clip_overlapping_paths dpGeo [ringP]).head? =
        some (some [(0, 0), (2, 0), (2, 2), (0, 2), (0, 0)]) := by
  have hclip : clip_overlapping_paths dpGeo [ringP] =
      [some [(0, 0), (2, 0), (2, 2), (0, 2), (0, 0)]] := by
    norm_num [clip_overlapping_paths, List.range_succ, clip_step, dpGeo, ringP,
      shoelace_area, dpRun, argmaxDist, distSqPointSeg]
  constructor
  · rw [hclip]
    norm_num [ringP]
  · rw [hclip]
    rfl

/-- C1 amended: the highest-priority polygon is clipped against nothing, but
its output entry is its simplification at tolerance `0.001` (dropped when
empty or of non-positive area), not the unmodified input polygon. -/
theorem clip_top_priority_simplified {α : Type} [Inhabited α] (G : GeoOps α)
    (paths : List α) (h : paths ≠ []) :
    (clip_overlapping_paths G paths).head? =
      some (if G.is_empty (paths.getD 0 default) = false ∧ 0 < G.area (paths.getD 0 default)
        then some (G.simplify (paths.getD 0 default) (1 / 1000)) else none) := by
  cases paths with
  | nil => exact absurd rfl h
  | cons a as =>
    show ((List.range (as.length + 1)).map (clip_step G (a :: as))).head? = _
    rw [List.range_succ_eq_map]
    simp [clip_step]

/-- C1 witness: the amended highest-priority behaviour evaluated on the
concrete one-polygon input. -/
theorem clip_top_priority_simplified_witness :
    ([ringP] : List (List Q2)) ≠ [] ∧
      (clip_overlapping_paths dpGeo [ringP]).head? =
        some (if dpGeo.is_empty (List.getD [ringP] 0 default) = false ∧
                0 < dpGeo.area (List.getD [ringP] 0 default)
          then some (dpGeo.simplify (List.getD [ringP] 0 default) (1 / 1000)) else none) :=
  ⟨by decide, clip_top_priority_simplified dpGeo [ringP] (by decide)⟩

/-! ## C7: ring selection and fallback of the outset corrector -/

/-- C7: with no returned rings the original `d` string is kept; with at
least one ring, the first ring of maximal vertex count is selected and
reconstructed as `M`, `L`…`L`, `Z` over its vertices. -/
theorem offset_ring_selection (rings : List (List (ℤ × ℤ))) (orig : String) :
    (rings = [] → simplify_and_offset_result rings orig = orig) ∧
    (rings ≠ [] →
      maxByLen rings ∈ rings ∧
      (∀ r ∈ rings, r.length ≤ (maxByLen rings).length) ∧
      simplify_and_offset_result rings orig = reconstruct_d (maxByLen rings) ∧
      ∀ p ps, maxByLen rings = p :: ps →
        simplify_and_offset_result rings orig =
          "M " ++ fmt3_scaled p.1 ++ "," ++ fmt3_scaled p.2 ++ " " ++
            String.join
              (ps.map (fun q => "L " ++ fmt3_scaled q.1 ++ "," ++ fmt3_scaled q.2 ++ " ")) ++
            "Z") := by
  cases rings with
  | nil => exact ⟨fun _ => rfl, fun h => absurd rfl h⟩
  | cons r rs =>
    constructor
    · intro h
      cases h
    · intro _
      refine ⟨foldl_maxByLen_mem rs r, ?_, rfl, ?_⟩
      · intro x hx
        rcases List.mem_cons.mp hx with rfl | hx
        · exact (foldl_maxByLen_ge rs x).1
        · exact (foldl_maxByLen_ge rs r).2 x hx
      · intro p ps hps
        show reconstruct_d (maxByLen (r :: rs)) = _
        rw [hps]
        rfl

/-- C7 witness: ring selection on a concrete two-ring result and fallback on
the empty result. -/
theorem offset_ring_selection_witness :
    (ringsEx ≠ [] ∧
      maxByLen ringsEx ∈ ringsEx ∧
      (∀ r ∈ ringsEx, r.length ≤ (maxByLen ringsEx).length) ∧
      simplify_and_offset_result ringsEx "orig" = reconstruct_d (maxByLen ringsEx)) ∧
      simplify_and_offset_result [] "orig" = "orig" := by
  have h := (offset_ring_selection ringsEx "orig").2 (by decide)
  exact ⟨⟨by decide, h.1, h.2.1, h.2.2.1⟩, (offset_ring_selection [] "orig").1 rfl⟩

/-! ## C8: the subtracted region for lower-priority features -/

/-- C8: every feature receives exactly one output entry, and for every
feature below the top priority the geometry subtracted from it is exactly
the union of all strictly-higher-priority polygons buffered outward by the
clearance gap `0.05`; an empty or zero-area difference is recorded as an
absent entry rather than an error. -/
theorem clip_lower_priority (α : Type) [Inhabited α] (G : GeoOps α) (paths : List α)
    (i : ℕ) (h0 : 0 < i) (hi : i < paths.length) :
    (clip_overlapping_paths G paths).length = paths.length ∧
    (clip_overlapping_paths G paths)[i]? =
      some
        (let cutter := G.buffer (G.unary_union (paths.take i)) CLIPPING_GAP_SIZE
         let result := G.difference (paths.getD i default) cutter
         if G.is_empty result = false ∧ 0 < G.area result
         then some (G.simplify result (1 / 1000)) else none) := by
  constructor
  · simp [clip_overlapping_paths]
  · rw [clip_overlapping_paths, List.getElem?_map, List.getElem?_range hi, Option.map_some']
    have hne : (paths.take i).isEmpty = false := by
      rw [List.isEmpty_eq_false]
      intro hnil
      rcases List.take_eq_nil_iff.mp hnil with h | h
      · omega
      · rw [h] at hi; simp at hi
    simp [clip_step, hne]

/-- C8 witness: the subtracted-region description evaluated at index `1` of
a concrete two-polygon list. -/
theorem clip_lower_priority_witness :
    (0 < 1 ∧ 1 < ([ringQ, ringP] : List (List Q2)).length) ∧
      ((clip_overlapping_paths dpGeo [ringQ, ringP]).length = [ringQ, ringP].length ∧
        (clip_overlapping_paths dpGeo [ringQ, ringP])[1]? =
          some
            (let cutter := dpGeo.buffer (dpGeo.unary_union ([ringQ, ringP].take 1))
              CLIPPING_GAP_SIZE
             let result := dpGeo.difference (List.getD [ringQ, ringP] 1 default) cutter
             if dpGeo.is_empty result = false ∧ 0 < dpGeo.area result
             then some (dpGeo.simplify result (1 / 1000)) else none)) :=
  ⟨⟨by decide, by decide⟩,
    clip_lower_priority (List Q2) dpGeo [ringQ, ringP] 1 (by decide) (by decide)⟩

/-! ## C10: all-or-nothing way conversion -/

/-- C10 counterexample: a way with a single resolvable node produces
`"M 0.0000 0.0000 L  Z"` — one `L` although there are zero subsequent
nodes. -/
theorem way_single_node_cex :
    convert_way_to_svg_path exEnv "w" = "M 0.0000 0.0000 L  Z" ∧
      countL (convert_way_to_svg_path exEnv "w") = 1 ∧
      ((exEnv.ways.lookup "w").getD []).length = 1 := by
  have hwp : way_points exEnv ["1"] = some ["0.0000 0.0000"] := by
    simp only [way_points, show exEnv.nodes.lookup "1" = some ((0 : ℚ), 0) by decide]
    norm_num [exEnv, fmt4_zero]
    all_goals decide
  have hconv : convert_way_to_svg_path exEnv "w" = "M 0.0000 0.0000 L  Z" := by
    simp only [convert_way_to_svg_path, show exEnv.ways.lookup "w" = some ["1"] by decide, hwp]
    decide
  refine ⟨hconv, ?_, by decide⟩
  rw [hconv]
  decide

/-- C10 amended: conversion is all-or-nothing — an unknown way, a missing
node, or an empty node list yields the empty string and a successful
resolution consumes every node reference; the emitted string is
`"M p0 L p1 … Z"`, which for a single-node way still contains one spurious
`L` with no following coordinates. -/
theorem way_all_or_nothing (env : OsmEnv) (wid : String) :
    (env.ways.lookup wid = none → convert_way_to_svg_path env wid = "") ∧
    ∀ refs, env.ways.lookup wid = some refs →
      ((way_points env refs = none → convert_way_to_svg_path env wid = "") ∧
       (way_points env refs = some [] → convert_way_to_svg_path env wid = "") ∧
       (∀ pts, way_points env refs = some pts → pts.length = refs.length) ∧
       (∀ p ps, way_points env refs = some (p :: ps) →
         convert_way_to_svg_path env wid =
           "M " ++ p ++ " L " ++ String.intercalate " L " ps ++ " Z")) := by
  constructor
  · intro h
    simp [convert_way_to_svg_path, h]
  · intro refs h
    refine ⟨?_, ?_, ?_, ?_⟩
    · intro hw
      simp [convert_way_to_svg_path, h, hw]
    · intro hw
      simp [convert_way_to_svg_path, h, hw]
    · intro pts hw
      exact way_points_length env refs pts hw
    · intro p ps hw
      simp [convert_way_to_svg_path, h, hw]

/-- C10 witness: the success shape evaluated on a concrete two-node way. -/
theorem way_all_or_nothing_witness :
    exEnv2.ways.lookup "w" = some ["1", "2"] ∧
      convert_way_to_svg_path exEnv2 "w" =
        "M " ++ "0.0000 0.0000" ++ " L " ++ String.intercalate " L " ["10.0000 0.0000"] ++ " Z" := by
  have hwp2 : way_points exEnv2 ["1", "2"] = some ["0.0000 0.0000", "10.0000 0.0000"] := by
    simp only [way_points, show exEnv2.nodes.lookup "1" = some ((0 : ℚ), 0) by decide,
      show exEnv2.nodes.lookup "2" = some ((10 : ℚ), 0) by decide]
    norm_num [exEnv2, fmt4_zero, fmt4_ten]
    all_goals decide
  exact ⟨by decide,
    ((way_all_or_nothing exEnv2 "w").2 ["1", "2"] (by decide)).2.2.2
      "0.0000 0.0000" ["10.0000 0.0000"] hwp2⟩
